import Mathlib

/-!
Shallow embedding of the shipment milestone & order analysis
(`src/app.streamlit.py`) and verification of its specification.

Modelling choices:
* A spreadsheet row becomes a `Row` structure whose fields are the seven
  required columns; timestamps are `Option Nat` (a totally ordered type,
  `none` standing for a null/NaT cell).
* `pandas.sort_values(by="stop actual arrival time", na_position="last")`
  on a group sorts the rows whose key is non-null ascending and appends the
  null-key rows in their original order (pandas `nargsort` appends the NaN
  positions, in order, after the sorted non-NaN positions).  This is
  embedded as `sortGroup`: an insertion sort of the non-null rows by their
  arrival key, followed by the null rows in input order.
* `df.groupby("shipment id")` (default `sort=True`) iterates groups by
  ascending key; embedded via the sorted deduplicated key list and
  `List.filter` for membership of a group.
* Python string operations `strip` and `lower` on headers become the
  character-list operations `stripStr` and `lowerStr` (drop whitespace from
  both ends; ASCII case mapping), and `upper` on stop types becomes
  `String.toUpper`.
-/

structure Row where
  shipmentId : String
  stopType : String
  stopName : String
  stopCountry : String
  arrival : Option Nat
  departure : Option Nat
  carrier : String
  deriving DecidableEq, Repr

/-- One output record per shipment, the nine columns of the result table. -/
structure OutputRecord where
  shipmentId : String
  originLocation : String
  numberOfStops : Nat
  carrier : String
  milestoneStatus : String
  outOfOrder : String
  intendedOrder : String
  exactOrder : String
  missedStops : String
  deriving DecidableEq, Repr

/-- Row-level `all_missing`: both timestamps null
(`arrival_missing & departure_missing`, lines 42–44). -/
def fullyMissing (r : Row) : Bool :=
  r.arrival.isNone && r.departure.isNone

/-- Lines 46–51: the milestone status of a group. -/
def milestone_status (g : List Row) : String :=
  if g.all fullyMissing then "No milestones received"
  else if g.any fullyMissing then "Completed with missing milestones"
  else "Completed with all milestones"

/-- Line 58: `any(times[i] > times[i + 1] for i in range(len(times) - 1))`,
some adjacent pair of the list is strictly decreasing. -/
def hasDecrease : List Nat → Bool
  | a :: b :: rest => decide (b < a) || hasDecrease (b :: rest)
  | _ => false

/-- Lines 54–61: the out-of-order flag, computed from the (already sorted)
group; `times` is the arrival column after `dropna`. -/
def out_of_order_status (g : List Row) : String :=
  if milestone_status g = "No milestones received" then "Not Applicable"
  else
    let times := g.filterMap (·.arrival)
    if hasDecrease times then "Yes" else "No"

/-- Lines 63–73: the intended order string, from the stop count alone. -/
def intended_order (num_stops : Nat) : String :=
  let others := if num_stops > 2 then num_stops - 2 else 0
  if others > 0 then
    "Origin → "
      ++ String.intercalate " → "
          ((List.range others).map fun i => "Stop" ++ toString (i + 1))
      ++ " → Destination"
  else
    "Origin → Destination"

/-- The labelling loop of lines 79–88: one label per visited stop type,
`stop_counter` starting at 1 and incremented only on intermediate stops. -/
def actualLabels : List String → Nat → List String
  | [], _ => []
  | s :: rest, counter =>
    if s.toLower = "origin" then "Origin" :: actualLabels rest counter
    else if s.toLower = "destination" then "Destination" :: actualLabels rest counter
    else ("Stop" ++ toString counter) :: actualLabels rest (counter + 1)

/-- Lines 75–89: the exact order string of the (already sorted) group,
built from the rows with a non-null arrival timestamp. -/
def exact_order (g : List Row) : String :=
  let stop_types := (g.filter (fun r => r.arrival.isSome)).map (·.stopType)
  let labels := actualLabels stop_types 1
  if labels.isEmpty then "—" else String.intercalate " → " labels

/-- Lines 91–97: missed stops of the (already sorted) group — stop names of
every row with a null arrival or a null departure, comma-joined. -/
def missed_stops (g : List Row) : String :=
  let missed := (g.filter
    (fun r => r.arrival.isNone || r.departure.isNone)).map (·.stopName)
  if missed.isEmpty then "—" else String.intercalate ", " missed

/-- Lines 99–103: stop name of the first row (in group order) whose stop
type upper-cases to `"ORIGIN"`, placeholder `"—"` if none. -/
def origin_location (g : List Row) : String :=
  match g.find? (fun r => r.stopType.toUpper = "ORIGIN") with
  | some r => r.stopName
  | none => "—"

/-- The sort key: the arrival timestamp of a row with a non-null arrival.
Only ever applied to such rows. -/
def arrivalKey (r : Row) : Nat := r.arrival.getD 0

/-- Ordering of rows by arrival key, used to sort the non-null rows. -/
def rowLe (a b : Row) : Prop := arrivalKey a ≤ arrivalKey b

instance : DecidableRel rowLe := fun a b => Nat.decLe _ _

instance : IsTotal Row rowLe := ⟨fun a b => Nat.le_total _ _⟩

instance : IsTrans Row rowLe := ⟨fun _ _ _ => Nat.le_trans⟩

/-- Lines 37–39: `group.sort_values(by="stop actual arrival time",
na_position="last")` — ascending by arrival, null-arrival rows after all
non-null rows in their original relative order. -/
def sortGroup (g : List Row) : List Row :=
  List.insertionSort rowLe (g.filter (fun r => r.arrival.isSome))
    ++ g.filter (fun r => r.arrival.isNone)

/-- Lines 36–118, body of the per-shipment loop: from the rows of one
shipment (in input order) to its output record. -/
def processGroup (shipment_id : String) (rows : List Row) : OutputRecord :=
  let group := sortGroup rows
  let carrier := match group with
    | [] => ""
    | r :: _ => r.carrier
  { shipmentId := shipment_id
    originLocation := origin_location group
    numberOfStops := group.length
    carrier := carrier
    milestoneStatus := milestone_status group
    outOfOrder := out_of_order_status group
    intendedOrder := intended_order group.length
    exactOrder := exact_order group
    missedStops := missed_stops group }

/-- Lines 20–28: the seven required (normalized) column names. -/
def required_cols : List String :=
  ["shipment id", "stop type", "stop name", "stop country",
   "stop actual arrival time", "stop actual departure time",
   "current carrier"]

/-- Python `str.lower`, embedded character-wise (ASCII case mapping). -/
def lowerStr (s : String) : String :=
  String.mk (s.data.map Char.toLower)

/-- Python `str.strip`: drop whitespace from both ends. -/
def stripStr (s : String) : String :=
  String.mk
    (((s.data.dropWhile Char.isWhitespace).reverse.dropWhile
      Char.isWhitespace).reverse)

/-- Line 18: `[col.strip().lower() for col in df.columns]`. -/
def normalizeHeaders (hs : List String) : List String :=
  hs.map fun c => lowerStr (stripStr c)

/-- Line 30: `[col for col in required_cols if col not in df.columns]`. -/
def missing_cols (hs : List String) : List String :=
  required_cols.filter (fun c => ¬ c ∈ normalizeHeaders hs)

/-- The distinct shipment ids, ascending — `df.groupby("shipment id")`
iterates groups by sorted key (default `sort=True`). -/
def groupKeys (rows : List Row) : List String :=
  List.insertionSort (· ≤ ·) (rows.map (·.shipmentId)).dedup

/-- The rows of one shipment, in input order. -/
def groupOf (rows : List Row) (k : String) : List Row :=
  rows.filter (fun r => r.shipmentId = k)

/-- Lines 34–120: the whole grouped loop, one output record per shipment. -/
def processAll (rows : List Row) : List OutputRecord :=
  (groupKeys rows).map fun k => processGroup k (groupOf rows k)

/-- Lines 18–120: the analysis entry point.  Fails with the list of missing
columns when the normalized headers lack a required column, otherwise
produces the output records. -/
def analyze (hs : List String) (rows : List Row) :
    Except (List String) (List OutputRecord) :=
  if missing_cols hs ≠ [] then .error (missing_cols hs)
  else .ok (processAll rows)

/-- The property the spec states for the out-of-order check: some index `i`
with `times[i] > times[i + 1]`. -/
def AdjacentDecrease (l : List Nat) : Prop :=
  ∃ i, ∃ h : i + 1 < l.length, l.get ⟨i + 1, h⟩ < l.get ⟨i, Nat.lt_of_succ_lt h⟩

/-- One labelling step as the spec words it: `Origin` and `Destination`
labels do not consume a counter value, an intermediate stop takes the next
`StopK` label and advances the counter. -/
def specLabelStep (acc : List String × Nat) (s : String) : List String × Nat :=
  if s.toLower = "origin" then (acc.1 ++ ["Origin"], acc.2)
  else if s.toLower = "destination" then (acc.1 ++ ["Destination"], acc.2)
  else (acc.1 ++ ["Stop" ++ toString acc.2], acc.2 + 1)

/-- The exact-order string exactly as the spec phrases it: take the visited
rows (non-null arrival) in group order, label each by stop type with a
counter starting at 1 incremented only on intermediate stops, join with
`" → "`, and fall back to `"—"` when no row is visited. -/
def exact_order_spec (g : List Row) : String :=
  let visited := g.filter (fun r => r.arrival.isSome)
  if visited.isEmpty then "—"
  else
    String.intercalate " → "
      ((visited.map (·.stopType)).foldl specLabelStep ([], 1)).1

/-- A visited origin row, used to instantiate hypothesised theorems. -/
def rowO : Row :=
  { shipmentId := "S1", stopType := "Origin", stopName := "A",
    stopCountry := "X", arrival := some 1, departure := some 2,
    carrier := "C" }

/-- A fully-missing intermediate row, used to instantiate hypothesised
theorems. -/
def rowN : Row :=
  { shipmentId := "S1", stopType := "Stop", stopName := "B",
    stopCountry := "X", arrival := none, departure := none,
    carrier := "C" }

/-- A row with a present arrival and a null departure, the C10 example. -/
def c10row : Row :=
  { shipmentId := "S2", stopType := "Origin", stopName := "A",
    stopCountry := "X", arrival := some 1, departure := none,
    carrier := "C" }

/-! ### Basic lemmas about the classifier -/

lemma fullyMissing_iff (r : Row) :
    fullyMissing r = true ↔ r.arrival = none ∧ r.departure = none := by
  cases ha : r.arrival <;> cases hd : r.departure <;>
    simp [fullyMissing, ha, hd]

lemma all_fullyMissing_iff (g : List Row) :
    g.all fullyMissing = true ↔ ∀ r ∈ g, r.arrival = none ∧ r.departure = none := by
  simp only [List.all_eq_true, fullyMissing_iff]

lemma any_fullyMissing_iff (g : List Row) :
    g.any fullyMissing = true ↔ ∃ r ∈ g, r.arrival = none ∧ r.departure = none := by
  simp only [List.any_eq_true, fullyMissing_iff]

/-! ### C1 -/

/-- C1: the milestone status of a group is `"No milestones received"`
precisely when every row has both timestamps null; otherwise it is
`"Completed with missing milestones"` precisely when some row has both
timestamps null; otherwise it is `"Completed with all milestones"`. -/
theorem spec_C1 (g : List Row) :
    (milestone_status g = "No milestones received" ↔
      ∀ r ∈ g, r.arrival = none ∧ r.departure = none)
    ∧ (milestone_status g = "Completed with missing milestones" ↔
      (¬ (∀ r ∈ g, r.arrival = none ∧ r.departure = none)
        ∧ ∃ r ∈ g, r.arrival = none ∧ r.departure = none))
    ∧ (milestone_status g = "Completed with all milestones" ↔
      (¬ (∀ r ∈ g, r.arrival = none ∧ r.departure = none)
        ∧ ¬ ∃ r ∈ g, r.arrival = none ∧ r.departure = none)) := by
  unfold milestone_status
  by_cases h1 : g.all fullyMissing = true
  · have hP := (all_fullyMissing_iff g).mp h1
    rw [if_pos h1]
    refine ⟨⟨fun _ => hP, fun _ => rfl⟩, ?_, ?_⟩
    · exact ⟨fun h => absurd h (by decide), fun h => absurd hP h.1⟩
    · exact ⟨fun h => absurd h (by decide), fun h => absurd hP h.1⟩
  · have hP : ¬ ∀ r ∈ g, r.arrival = none ∧ r.departure = none :=
      fun h => h1 ((all_fullyMissing_iff g).mpr h)
    rw [if_neg h1]
    by_cases h2 : g.any fullyMissing = true
    · have hQ := (any_fullyMissing_iff g).mp h2
      rw [if_pos h2]
      refine ⟨⟨fun h => absurd h (by decide), fun h => absurd h hP⟩, ?_, ?_⟩
      · exact ⟨fun _ => ⟨hP, hQ⟩, fun _ => rfl⟩
      · exact ⟨fun h => absurd h (by decide), fun h => absurd hQ h.2⟩
    · have hQ : ¬ ∃ r ∈ g, r.arrival = none ∧ r.departure = none :=
        fun h => h2 ((any_fullyMissing_iff g).mpr h)
      rw [if_neg h2]
      refine ⟨⟨fun h => absurd h (by decide), fun h => absurd h hP⟩, ?_, ?_⟩
      · exact ⟨fun h => absurd h (by decide), fun h => absurd h.2 hQ⟩
      · exact ⟨fun _ => ⟨hP, hQ⟩, fun _ => rfl⟩

/-! ### Adjacent-decrease characterization, for C2 -/

lemma hasDecrease_iff : ∀ l : List Nat, hasDecrease l = true ↔ AdjacentDecrease l
  | [] => by
    constructor
    · intro h
      exact absurd h (by decide)
    · rintro ⟨i, h, -⟩
      simp only [List.length_nil] at h
      omega
  | [a] => by
    constructor
    · intro h
      rw [show hasDecrease [a] = false from rfl] at h
      exact Bool.noConfusion h
    · rintro ⟨i, h, -⟩
      simp only [List.length_singleton] at h
      omega
  | a :: b :: rest => by
    rw [show hasDecrease (a :: b :: rest)
        = (decide (b < a) || hasDecrease (b :: rest)) from rfl,
      Bool.or_eq_true, decide_eq_true_iff, hasDecrease_iff (b :: rest)]
    constructor
    · rintro (hba | ⟨i, h, hlt⟩)
      · exact ⟨0, by simp only [List.length_cons]; omega, hba⟩
      · exact ⟨i + 1,
          by simp only [List.length_cons] at h ⊢; omega, hlt⟩
    · rintro ⟨i, h, hlt⟩
      cases i with
      | zero => exact Or.inl hlt
      | succ j =>
        exact Or.inr ⟨j,
          by simp only [List.length_cons] at h ⊢; omega, hlt⟩

/-! ### C2 -/

/-- C2: the out-of-order flag is `"Not Applicable"` exactly when the
milestone status is `"No milestones received"`; otherwise it is `"Yes"`
precisely when some adjacent pair of the non-null arrival timestamps is
strictly decreasing, and `"No"` precisely when no such pair exists. -/
theorem spec_C2 (g : List Row) :
    (out_of_order_status g = "Not Applicable" ↔
      milestone_status g = "No milestones received")
    ∧ (out_of_order_status g = "Yes" ↔
      (milestone_status g ≠ "No milestones received"
        ∧ AdjacentDecrease (g.filterMap (·.arrival))))
    ∧ (out_of_order_status g = "No" ↔
      (milestone_status g ≠ "No milestones received"
        ∧ ¬ AdjacentDecrease (g.filterMap (·.arrival)))) := by
  by_cases hm : milestone_status g = "No milestones received"
  · have ho : out_of_order_status g = "Not Applicable" := by
      unfold out_of_order_status
      rw [if_pos hm]
    rw [ho]
    refine ⟨⟨fun _ => hm, fun _ => rfl⟩, ?_, ?_⟩
    · exact ⟨fun h => absurd h (by decide), fun h => absurd hm h.1⟩
    · exact ⟨fun h => absurd h (by decide), fun h => absurd hm h.1⟩
  · by_cases hd : hasDecrease (g.filterMap (·.arrival)) = true
    · have hA := (hasDecrease_iff _).mp hd
      have ho : out_of_order_status g = "Yes" := by
        unfold out_of_order_status
        rw [if_neg hm]
        exact if_pos hd
      rw [ho]
      refine ⟨⟨fun h => absurd h (by decide), fun h => absurd h hm⟩, ?_, ?_⟩
      · exact ⟨fun _ => ⟨hm, hA⟩, fun _ => rfl⟩
      · exact ⟨fun h => absurd h (by decide), fun h => absurd hA h.2⟩
    · have hA : ¬ AdjacentDecrease (g.filterMap (·.arrival)) :=
        fun h => hd ((hasDecrease_iff _).mpr h)
      have ho : out_of_order_status g = "No" := by
        unfold out_of_order_status
        rw [if_neg hm]
        exact if_neg hd
      rw [ho]
      refine ⟨⟨fun h => absurd h (by decide), fun h => absurd h hm⟩, ?_, ?_⟩
      · exact ⟨fun h => absurd h (by decide), fun h => absurd h.2 hA⟩
      · exact ⟨fun _ => ⟨hm, hA⟩, fun _ => rfl⟩

/-! ### The sorted group, for C3 and C4 -/

lemma hasDecrease_eq_false_of_pairwise :
    ∀ l : List Nat, l.Pairwise (· ≤ ·) → hasDecrease l = false
  | [], _ => rfl
  | [_], _ => rfl
  | a :: b :: rest, h => by
    rw [show hasDecrease (a :: b :: rest)
        = (decide (b < a) || hasDecrease (b :: rest)) from rfl]
    have hab : a ≤ b := (List.pairwise_cons.mp h).1 b (List.mem_cons_self b rest)
    have ht := (List.pairwise_cons.mp h).2
    rw [hasDecrease_eq_false_of_pairwise (b :: rest) ht]
    have hba : ¬ b < a := Nat.not_lt.mpr hab
    simp [hba]

lemma filterMap_arrival_eq_map :
    ∀ l : List Row, (∀ r ∈ l, r.arrival.isSome = true) →
      l.filterMap (·.arrival) = l.map arrivalKey
  | [], _ => rfl
  | r :: t, h => by
    obtain ⟨v, hv⟩ :=
      Option.isSome_iff_exists.mp (h r (List.mem_cons_self r t))
    have ih := filterMap_arrival_eq_map t
      (fun s hs => h s (List.mem_cons_of_mem _ hs))
    simp only [List.filterMap_cons, List.map_cons, hv, arrivalKey,
      Option.getD_some, ih]

lemma filterMap_arrival_eq_nil (l : List Row)
    (h : ∀ r ∈ l, r.arrival = none) : l.filterMap (·.arrival) = [] := by
  rw [List.filterMap_eq_nil_iff]
  exact h

lemma mem_sorted_part (g : List Row) :
    ∀ r ∈ List.insertionSort rowLe (g.filter (fun r => r.arrival.isSome)),
      r.arrival.isSome = true := by
  intro r hr
  simp only [List.mem_insertionSort, List.mem_filter] at hr
  exact hr.2

lemma mem_null_part (g : List Row) :
    ∀ r ∈ g.filter (fun r => r.arrival.isNone), r.arrival = none := by
  intro r hr
  simp only [List.mem_filter, Option.isNone_iff_eq_none] at hr
  exact hr.2

lemma sortGroup_times (g : List Row) :
    (sortGroup g).filterMap (·.arrival)
      = (List.insertionSort rowLe
          (g.filter (fun r => r.arrival.isSome))).map arrivalKey := by
  unfold sortGroup
  rw [List.filterMap_append, filterMap_arrival_eq_map _ (mem_sorted_part g),
    filterMap_arrival_eq_nil _ (mem_null_part g), List.append_nil]

lemma sortGroup_times_pairwise (g : List Row) :
    ((sortGroup g).filterMap (·.arrival)).Pairwise (· ≤ ·) := by
  rw [sortGroup_times]
  have hs : List.Sorted rowLe
      (List.insertionSort rowLe (g.filter (fun r => r.arrival.isSome))) :=
    List.sorted_insertionSort rowLe _
  exact List.pairwise_map.mpr hs

/-! ### C3 -/

/-- C3: because the out-of-order check runs on the already-ascending-sorted
sequence of non-null arrival timestamps, the flag computed for a sorted
group is never `"Yes"`: it is always `"Not Applicable"` or `"No"`. -/
theorem spec_C3 (g : List Row) :
    out_of_order_status (sortGroup g) ≠ "Yes"
    ∧ (out_of_order_status (sortGroup g) = "Not Applicable"
      ∨ out_of_order_status (sortGroup g) = "No") := by
  have hd : hasDecrease ((sortGroup g).filterMap (·.arrival)) = false :=
    hasDecrease_eq_false_of_pairwise _ (sortGroup_times_pairwise g)
  by_cases hm : milestone_status (sortGroup g) = "No milestones received"
  · have ho : out_of_order_status (sortGroup g) = "Not Applicable" := by
      unfold out_of_order_status
      rw [if_pos hm]
    rw [ho]
    exact ⟨by decide, Or.inl rfl⟩
  · have ho : out_of_order_status (sortGroup g) = "No" := by
      unfold out_of_order_status
      rw [if_neg hm]
      exact if_neg (by simp [hd])
    rw [ho]
    exact ⟨by decide, Or.inr rfl⟩

/-! ### C4 -/

lemma filter_append_filter_not_perm {α : Type} (p : α → Bool) :
    ∀ l : List α,
      List.Perm (l.filter p ++ l.filter (fun a => !(p a))) l
  | [] => by simp
  | a :: t => by
    by_cases h : p a = true
    · rw [List.filter_cons_of_pos h,
        List.filter_cons_of_neg (by simp [h]), List.cons_append]
      exact (filter_append_filter_not_perm p t).cons a
    · rw [List.filter_cons_of_neg h, List.filter_cons_of_pos (by simp [h])]
      exact List.perm_middle.trans ((filter_append_filter_not_perm p t).cons a)

lemma isNone_eq_not_isSome :
    (fun r : Row => r.arrival.isNone) = (fun r : Row => !(r.arrival.isSome)) := by
  funext r
  cases r.arrival <;> rfl

lemma sortGroup_perm (g : List Row) : List.Perm (sortGroup g) g := by
  unfold sortGroup
  have h1 :
      List.Perm (List.insertionSort rowLe (g.filter (fun r => r.arrival.isSome)))
        (g.filter (fun r => r.arrival.isSome)) :=
    List.perm_insertionSort rowLe _
  refine (h1.append_right _).trans ?_
  rw [isNone_eq_not_isSome]
  exact filter_append_filter_not_perm _ g

/-- C4: sorting a shipment group is a permutation of it that splits into a
part with all arrival timestamps present, ascending, followed by the rows
with a null arrival kept in their original input order. -/
theorem spec_C4 (g : List Row) :
    List.Perm (sortGroup g) g
    ∧ ((sortGroup g).filterMap (·.arrival)).Pairwise (· ≤ ·)
    ∧ ∃ A B, sortGroup g = A ++ B
        ∧ (∀ r ∈ A, r.arrival.isSome = true)
        ∧ (∀ r ∈ B, r.arrival = none)
        ∧ B = g.filter (fun r => r.arrival.isNone) := by
  refine ⟨sortGroup_perm g, sortGroup_times_pairwise g, ?_⟩
  exact ⟨List.insertionSort rowLe (g.filter (fun r => r.arrival.isSome)),
    g.filter (fun r => r.arrival.isNone), rfl,
    mem_sorted_part g, mem_null_part g, rfl⟩

/-! ### C5: the exact-order string against the wording of the spec -/

lemma actualLabels_cons (s : String) (rest : List String) (c : Nat) :
    actualLabels (s :: rest) c =
      if s.toLower = "origin" then "Origin" :: actualLabels rest c
      else if s.toLower = "destination" then
        "Destination" :: actualLabels rest c
      else ("Stop" ++ toString c) :: actualLabels rest (c + 1) := rfl

lemma specLabelStep_apply (acc : List String × Nat) (s : String) :
    specLabelStep acc s =
      if s.toLower = "origin" then (acc.1 ++ ["Origin"], acc.2)
      else if s.toLower = "destination" then (acc.1 ++ ["Destination"], acc.2)
      else (acc.1 ++ ["Stop" ++ toString acc.2], acc.2 + 1) := rfl

lemma foldl_specLabelStep :
    ∀ (ts : List String) (acc : List String) (c : Nat),
      (ts.foldl specLabelStep (acc, c)).1 = acc ++ actualLabels ts c
  | [], acc, c => by simp [actualLabels]
  | s :: rest, acc, c => by
    rw [List.foldl_cons, actualLabels_cons, specLabelStep_apply]
    by_cases h1 : s.toLower = "origin"
    · rw [if_pos h1, if_pos h1, foldl_specLabelStep rest _ c]
      simp [List.append_assoc]
    · rw [if_neg h1, if_neg h1]
      by_cases h2 : s.toLower = "destination"
      · rw [if_pos h2, if_pos h2, foldl_specLabelStep rest _ c]
        simp [List.append_assoc]
      · rw [if_neg h2, if_neg h2, foldl_specLabelStep rest _ (c + 1)]
        simp [List.append_assoc]

lemma actualLabels_eq_nil_iff :
    ∀ (ts : List String) (c : Nat), actualLabels ts c = [] ↔ ts = []
  | [], c => by simp [actualLabels]
  | s :: rest, c => by
    constructor
    · intro h
      unfold actualLabels at h
      by_cases h1 : s.toLower = "origin"
      · rw [if_pos h1] at h
        exact absurd h (List.cons_ne_nil _ _)
      · rw [if_neg h1] at h
        by_cases h2 : s.toLower = "destination"
        · rw [if_pos h2] at h
          exact absurd h (List.cons_ne_nil _ _)
        · rw [if_neg h2] at h
          exact absurd h (List.cons_ne_nil _ _)
    · intro h
      exact absurd h (List.cons_ne_nil _ _)

/-- C5: the exact-order string the code computes agrees with the
label-by-label description of the spec on every group. -/
theorem spec_C5 (g : List Row) : exact_order g = exact_order_spec g := by
  unfold exact_order exact_order_spec
  by_cases hv : (g.filter (fun r => r.arrival.isSome)).isEmpty = true
  · have hnil : g.filter (fun r => r.arrival.isSome) = [] :=
      List.isEmpty_iff.mp hv
    rw [hnil]
    simp [actualLabels]
  · have hne : g.filter (fun r => r.arrival.isSome) ≠ [] :=
      fun h => hv (List.isEmpty_iff.mpr h)
    rw [if_neg hv]
    have hts : (g.filter (fun r => r.arrival.isSome)).map (·.stopType) ≠ [] := by
      intro h
      exact hne (List.map_eq_nil_iff.mp h)
    have hlabels :
        actualLabels ((g.filter (fun r => r.arrival.isSome)).map (·.stopType)) 1
          ≠ [] := by
      intro h
      exact hts ((actualLabels_eq_nil_iff _ 1).mp h)
    rw [if_neg (by simpa [List.isEmpty_iff] using hlabels)]
    rw [foldl_specLabelStep _ [] 1, List.nil_append]

/-! ### C6: fully-missing rows do not change the exact order -/

lemma filter_insertIdx {α : Type} (p : α → Bool) (a : α) (h : p a = false) :
    ∀ (l : List α) (i : Nat), (l.insertIdx i a).filter p = l.filter p
  | l, 0 => by
    rw [List.insertIdx_zero, List.filter_cons, h]
    simp
  | [], i + 1 => by
    rw [List.insertIdx_succ_nil]
  | b :: t, i + 1 => by
    rw [List.insertIdx_succ_cons, List.filter_cons, List.filter_cons,
      filter_insertIdx p a h t i]

lemma sortGroup_filter_isSome (l : List Row) :
    (sortGroup l).filter (fun r => r.arrival.isSome)
      = List.insertionSort rowLe (l.filter (fun r => r.arrival.isSome)) := by
  unfold sortGroup
  rw [List.filter_append]
  have h1 : (List.insertionSort rowLe
        (l.filter (fun r => r.arrival.isSome))).filter
        (fun r => r.arrival.isSome)
      = List.insertionSort rowLe (l.filter (fun r => r.arrival.isSome)) :=
    List.filter_eq_self.mpr (mem_sorted_part l)
  have h2 : (l.filter (fun r => r.arrival.isNone)).filter
      (fun r => r.arrival.isSome) = [] := by
    rw [List.filter_eq_nil_iff]
    intro x hx
    have hn := mem_null_part l x hx
    simp [hn]
  rw [h1, h2, List.append_nil]

/-- C6: adding a row with both timestamps null to a group, at any position,
leaves the exact-order string of the sorted group unchanged. -/
theorem spec_C6 (G : List Row) (r : Row) (i : Nat)
    (ha : r.arrival = none) (hd : r.departure = none) :
    exact_order (sortGroup (G.insertIdx i r)) = exact_order (sortGroup G) := by
  have hkey : (G.insertIdx i r).filter (fun s => s.arrival.isSome)
      = G.filter (fun s => s.arrival.isSome) :=
    filter_insertIdx _ r (by simp [ha]) G i
  unfold exact_order
  rw [sortGroup_filter_isSome, sortGroup_filter_isSome, hkey]

/-- Witness for C6 at a concrete group: inserting the fully-missing `rowN`
in front of `[rowO]` leaves the exact order unchanged. -/
theorem spec_C6_witness :
    rowN.arrival = none ∧ rowN.departure = none
    ∧ exact_order (sortGroup (List.insertIdx 0 rowN [rowO]))
      = exact_order (sortGroup [rowO]) :=
  ⟨rfl, rfl, spec_C6 [rowO] rowN 0 rfl rfl⟩

/-! ### C7: the intended order is a function of the stop count alone -/

lemma intercalate_go_append (s : String) :
    ∀ (l : List String) (acc₁ acc₂ : String),
      String.intercalate.go (acc₁ ++ acc₂) s l
        = acc₁ ++ String.intercalate.go acc₂ s l
  | [], _, _ => rfl
  | a :: as, acc₁, acc₂ => by
    show String.intercalate.go (acc₁ ++ acc₂ ++ s ++ a) s as
      = acc₁ ++ String.intercalate.go (acc₂ ++ s ++ a) s as
    rw [String.append_assoc acc₁ acc₂ s, String.append_assoc acc₁ (acc₂ ++ s) a]
    exact intercalate_go_append s as acc₁ ((acc₂ ++ s) ++ a)

lemma intercalate_cons (s a : String) :
    ∀ l : List String, l ≠ [] →
      String.intercalate s (a :: l) = a ++ s ++ String.intercalate s l
  | [], h => absurd rfl h
  | b :: bs, _ => by
    show String.intercalate.go (a ++ s ++ b) s bs
      = a ++ s ++ String.intercalate.go b s bs
    exact intercalate_go_append s bs (a ++ s) b

lemma intercalate_append_singleton (s d : String) :
    ∀ L : List String, L ≠ [] →
      String.intercalate s (L ++ [d]) = String.intercalate s L ++ s ++ d
  | [], h => absurd rfl h
  | [a], _ => by
    rw [List.singleton_append, intercalate_cons s a [d] (by simp)]
    rfl
  | a :: b :: bs, _ => by
    rw [List.cons_append, intercalate_cons s a ((b :: bs) ++ [d]) (by simp),
      intercalate_append_singleton s d (b :: bs) (by simp),
      intercalate_cons s a (b :: bs) (by simp)]
    simp only [String.append_assoc]

/-- C7: the intended-order string depends only on the row count of the
group; it is `"Origin → Destination"` for counts up to 2, and otherwise the
join of `"Origin"`, the `N - 2` numbered intermediate labels, and
`"Destination"`. -/
theorem spec_C7 (g₁ g₂ : List Row) (s₁ s₂ : String) (N : Nat) :
    (g₁.length = g₂.length →
      (processGroup s₁ g₁).intendedOrder = (processGroup s₂ g₂).intendedOrder)
    ∧ (N ≤ 2 → intended_order N = "Origin → Destination")
    ∧ (2 < N → intended_order N =
        String.intercalate " → "
          ("Origin" ::
            ((List.range (N - 2)).map fun i => "Stop" ++ toString (i + 1))
            ++ ["Destination"])) := by
  refine ⟨?_, ?_, ?_⟩
  · intro hlen
    show intended_order (sortGroup g₁).length = intended_order (sortGroup g₂).length
    rw [(sortGroup_perm g₁).length_eq, (sortGroup_perm g₂).length_eq, hlen]
  · intro hN
    unfold intended_order
    have h2 : ¬ N > 2 := Nat.not_lt.mpr hN
    rw [if_neg h2]
    rfl
  · intro hN
    unfold intended_order
    rw [if_pos hN]
    have hpos : 0 < N - 2 := by omega
    rw [if_pos hpos]
    have hne : ((List.range (N - 2)).map fun i => "Stop" ++ toString (i + 1)) ≠ [] := by
      simp only [ne_eq, List.map_eq_nil_iff, List.range_eq_nil]
      omega
    generalize hL : (List.range (N - 2)).map
      (fun i => "Stop" ++ toString (i + 1)) = L at hne ⊢
    rw [intercalate_append_singleton " → " "Destination" ("Origin" :: L)
        (by simp),
      intercalate_cons " → " "Origin" L hne]
    rw [show ("Origin → " : String) = "Origin" ++ " → " from by decide]
    rw [show (" → Destination" : String) = " → " ++ "Destination" from by decide]
    simp only [String.append_assoc]

/-- Witness for C7: two concrete equal-length groups with different stop
types give the same intended order, and the two count regimes produce the
stated strings. -/
theorem spec_C7_witness :
    (processGroup "S1" [rowO]).intendedOrder
      = (processGroup "S2" [rowN]).intendedOrder
    ∧ intended_order 2 = "Origin → Destination"
    ∧ intended_order 4 =
        String.intercalate " → "
          ("Origin" ::
            ((List.range 2).map fun i => "Stop" ++ toString (i + 1))
            ++ ["Destination"]) :=
  ⟨(spec_C7 [rowO] [rowN] "S1" "S2" 2).1 rfl,
    (spec_C7 [] [] "" "" 2).2.1 (by omega),
    (spec_C7 [] [] "" "" 4).2.2 (by omega)⟩

/-! ### C8: the missing-columns check -/

lemma missing_cols_eq_nil_iff (hs : List String) :
    missing_cols hs = [] ↔ ∀ c ∈ required_cols, c ∈ normalizeHeaders hs := by
  unfold missing_cols
  rw [List.filter_eq_nil_iff]
  constructor
  · intro h c hc
    have := h c hc
    simpa using this
  · intro h c hc
    simpa using h c hc

/-- C8: the analysis fails exactly when some required field name is absent
from the trimmed-and-lowercased headers; the error is the full filtered
list of missing names, no output record is produced on failure, and with
all columns present the per-shipment results are returned. -/
theorem spec_C8 (hs : List String) (rows : List Row) :
    ((∃ c ∈ required_cols, ¬ c ∈ normalizeHeaders hs) ↔
      analyze hs rows = .error (missing_cols hs))
    ∧ (∀ e, analyze hs rows = .error e → e = missing_cols hs)
    ∧ ((∃ c ∈ required_cols, ¬ c ∈ normalizeHeaders hs) →
        ∀ recs, analyze hs rows ≠ .ok recs)
    ∧ ((∀ c ∈ required_cols, c ∈ normalizeHeaders hs) →
        analyze hs rows = .ok (processAll rows)) := by
  by_cases hm : missing_cols hs = []
  · have hall := (missing_cols_eq_nil_iff hs).mp hm
    have hok : analyze hs rows = .ok (processAll rows) := by
      unfold analyze
      rw [if_neg (by simpa using hm)]
    refine ⟨⟨?_, ?_⟩, ?_, ?_, fun _ => hok⟩
    · rintro ⟨c, hc, hnot⟩
      exact absurd (hall c hc) hnot
    · intro h
      rw [hok] at h
      exact Except.noConfusion h
    · intro e he
      rw [hok] at he
      exact Except.noConfusion he
    · rintro ⟨c, hc, hnot⟩
      exact absurd (hall c hc) hnot
  · have herr : analyze hs rows = .error (missing_cols hs) := by
      unfold analyze
      rw [if_pos (by simpa using hm)]
    have hex : ∃ c ∈ required_cols, ¬ c ∈ normalizeHeaders hs := by
      by_contra hno
      push_neg at hno
      exact hm ((missing_cols_eq_nil_iff hs).mpr hno)
    refine ⟨⟨fun _ => herr, fun _ => hex⟩, ?_, ?_, ?_⟩
    · intro e he
      rw [herr] at he
      exact (Except.error.injEq _ _).mp he.symm
    · intro _ recs hok
      rw [herr] at hok
      exact Except.noConfusion hok
    · intro hall
      exact absurd ((missing_cols_eq_nil_iff hs).mpr hall) hm

/-- Witness for C8: with no headers every required column is missing and
the analysis errors; with the exact required names as headers it
succeeds. -/
theorem spec_C8_witness :
    analyze [] [] = Except.error (missing_cols [])
    ∧ analyze required_cols [] = Except.ok (processAll []) :=
  ⟨(spec_C8 [] []).1.mp (by decide),
    (spec_C8 required_cols []).2.2.2 (by decide)⟩

/-! ### C9: the per-shipment analysis is total, with fallbacks -/

lemma origin_location_eq_fallback (g : List Row)
    (h : ∀ r ∈ g, ¬ r.stopType.toUpper = "ORIGIN") :
    origin_location g = "—" := by
  unfold origin_location
  have hf : g.find? (fun r => r.stopType.toUpper = "ORIGIN") = none := by
    rw [List.find?_eq_none]
    intro r hr
    simpa using h r hr
  rw [hf]

lemma all_missing_of_sortGroup (g : List Row)
    (h : ∀ r ∈ g, r.arrival = none ∧ r.departure = none) :
    ∀ r ∈ sortGroup g, r.arrival = none ∧ r.departure = none := by
  intro r hr
  exact h r ((sortGroup_perm g).mem_iff.mp hr)

lemma milestone_none_of_all_missing (g : List Row)
    (h : ∀ r ∈ g, r.arrival = none ∧ r.departure = none) :
    milestone_status g = "No milestones received" := by
  unfold milestone_status
  rw [if_pos ((all_fullyMissing_iff g).mpr h)]

lemma filter_isSome_eq_nil (g : List Row)
    (h : ∀ r ∈ g, r.arrival = none) :
    g.filter (fun r => r.arrival.isSome) = [] := by
  rw [List.filter_eq_nil_iff]
  intro r hr
  simp [h r hr]

/-- C9: whenever the required columns are present, the analysis succeeds
and returns one record per shipment; null timestamps, single-row groups and
groups without an origin row are all handled by the documented fallbacks
instead of failing. -/
theorem spec_C9 (hs : List String) (rows : List Row)
    (h : ∀ c ∈ required_cols, c ∈ normalizeHeaders hs) :
    analyze hs rows = .ok (processAll rows)
    ∧ (processAll rows).length = (groupKeys rows).length
    ∧ (∀ g : List Row, (∀ r ∈ g, ¬ r.stopType.toUpper = "ORIGIN") →
        origin_location g = "—")
    ∧ (∀ g : List Row, (∀ r ∈ g, r.arrival = none ∧ r.departure = none) →
        out_of_order_status (sortGroup g) = "Not Applicable"
        ∧ exact_order (sortGroup g) = "—")
    ∧ (∀ (s : String) (r : Row), (processGroup s [r]).numberOfStops = 1) := by
  refine ⟨?_, List.length_map _ _, origin_location_eq_fallback, ?_, ?_⟩
  · unfold analyze
    rw [if_neg (by simpa using (missing_cols_eq_nil_iff hs).mpr h)]
  · intro g hg
    constructor
    · unfold out_of_order_status
      rw [if_pos (milestone_none_of_all_missing _ (all_missing_of_sortGroup g hg))]
    · unfold exact_order
      rw [sortGroup_filter_isSome,
        filter_isSome_eq_nil g (fun r hr => (hg r hr).1)]
      rfl
  · intro s r
    show (sortGroup [r]).length = 1
    rw [(sortGroup_perm [r]).length_eq, List.length_singleton]

/-- Witness for C9: the analysis of a one-row table under the exact
required headers succeeds. -/
theorem spec_C9_witness :
    analyze required_cols [rowO] = .ok (processAll [rowO]) :=
  (spec_C9 required_cols [rowO] (by decide)).1

/-! ### C10: complete milestones can still report missed stops -/

/-- C10: a concrete shipment group whose output record has milestone status
`"Completed with all milestones"` and yet a non-placeholder missed-stops
string: `c10row` has an arrival but no departure, so it is not fully
missing, yet its name is listed as missed. -/
theorem spec_C10 :
    (processGroup "S2" [c10row]).milestoneStatus
      = "Completed with all milestones"
    ∧ (processGroup "S2" [c10row]).missedStops ≠ "—"
    ∧ (processGroup "S2" [c10row]).missedStops = "A"
    ∧ fullyMissing c10row = false := by
  refine ⟨by decide, by decide, by decide, rfl⟩
